import Mathlib

/-!
Verification of the `command` package (subcommand dispatch and argument
validation for CLI programs), shallowly embedded from `command.go`.

The embedding models:
* the argument-slot data model (`cmdArg`, `cmdArgType`) and the slot
  classifier `cmdArgFromString`;
* the arity validator `cmdArgs.Validate`;
* the resolution engine `TryParse`, with the process-wide mutable state
  (`cmds`, `preargdefs`, `matchingCmd`, `args`, the feature flags) made
  explicit as a `CmdState` record that is threaded through.

The host flag library (Go's `flag` package) is outside the repository; its
per-command parse is modelled as a boundary function carried by each
registered command (`cmdCont.parseFlags`): given the tokens after the
command name it reports which flags the user explicitly set and the
leftover positional tokens.  Likewise, global-flag parsing happens before
`TryParse` inspects anything, so `TryParse` here takes the positional
residue (`flag.Args()`) directly; `flag.Arg i` is modelled by `flagArg`,
returning `""` out of range exactly as the Go function does.
-/

namespace Command

/-- Type `cmdArgType` from command.go: the kind of a positional argument slot
(`atMandatory`, `atOptional`, `atEllipse`). -/
inductive cmdArgType
  | atMandatory
  | atOptional
  | atEllipse
deriving DecidableEq

/-- Type `cmdArg` from command.go: a display name plus a slot kind. -/
structure cmdArg where
  name : String
  argType : cmdArgType
deriving DecidableEq

/-- Result of `cmdArgs.Validate`: `nil` (ok), `"too few arguments"` or
`"too many arguments"`. -/
inductive ValidationOutcome
  | ok
  | tooFew
  | tooMany
deriving DecidableEq

/-- Validator `cmdArgs.Validate` from command.go: walk the slots left to right over
the supplied tokens.  A Mandatory slot returns `tooFew` if no token
remains and otherwise consumes one; an Optional slot consumes one token
only if any remain; an Ellipse slot empties the remaining tokens and the
loop continues.  After the loop, leftover tokens give `tooMany`. -/
def Validate : List cmdArg → List String → ValidationOutcome
  | [], args => if args.length ≠ 0 then ValidationOutcome.tooMany else ValidationOutcome.ok
  | a :: rest, args =>
    match a.argType with
    | cmdArgType.atMandatory =>
      match args with
      | [] => ValidationOutcome.tooFew
      | _ :: args2 => Validate rest args2
    | cmdArgType.atOptional =>
      match args with
      | [] => Validate rest []
      | _ :: args2 => Validate rest args2
    | cmdArgType.atEllipse => Validate rest []

/-- Classifier `cmdArgFromString` from command.go.  The literal `"..."` gives an
Ellipse slot; otherwise the Go code indexes `argPattern[0]` and
`argPattern[len-1]`, which panics on the empty string — modelled by
`none`; a `[`…`]`-bracketed token gives an Optional slot keeping the
pattern as its name; anything else gives a Mandatory slot named
`"<" ++ pattern ++ ">"`. -/
def cmdArgFromString (argPattern : String) : Option cmdArg :=
  if argPattern = "..." then some ⟨argPattern, cmdArgType.atEllipse⟩
  else if argPattern = "" then none
  else if argPattern.front = '[' ∧ argPattern.back = ']' then
    some ⟨argPattern, cmdArgType.atOptional⟩
  else some ⟨"<" ++ argPattern ++ ">", cmdArgType.atMandatory⟩

/-- Modelled from the spec (§3, §4.1), for comparison with `Validate`:
the pure left-to-right consumption walk.  Returns `none` when a Mandatory
slot finds no remaining token, otherwise the tokens remaining after every
slot consumed its share (Mandatory one token, Optional one token if any
remain, Variadic all of them). -/
def specConsumeSlots : List cmdArg → List String → Option (List String)
  | [], args => some args
  | a :: rest, args =>
    match a.argType with
    | cmdArgType.atMandatory =>
      match args with
      | [] => none
      | _ :: args2 => specConsumeSlots rest args2
    | cmdArgType.atOptional =>
      match args with
      | [] => specConsumeSlots rest []
      | _ :: args2 => specConsumeSlots rest args2
    | cmdArgType.atEllipse => specConsumeSlots rest []

/-- Modelled from the spec: classify the result of the consumption walk —
a failed Mandatory slot is `TooFew`, leftover tokens after all slots are
`TooMany`, and otherwise the outcome is `OK`. -/
def specClassify : Option (List String) → ValidationOutcome
  | none => ValidationOutcome.tooFew
  | some [] => ValidationOutcome.ok
  | some (_ :: _) => ValidationOutcome.tooMany

/-- Does the slot list contain a Variadic (ellipse) slot? -/
def hasEllipse (ca : List cmdArg) : Bool :=
  ca.any (fun a => decide (a.argType = cmdArgType.atEllipse))

/-- The slots strictly before the first Variadic slot. -/
def beforeEllipse (ca : List cmdArg) : List cmdArg :=
  ca.takeWhile (fun a => !decide (a.argType = cmdArgType.atEllipse))

/-- The slots from the first Variadic slot onwards (empty when there is
none). -/
def fromEllipse (ca : List cmdArg) : List cmdArg :=
  ca.dropWhile (fun a => !decide (a.argType = cmdArgType.atEllipse))

/-- Modelled from the spec: "each Mandatory slot preceding the Variadic
slot receives a token" — the left-to-right walk over the slots before the
first Variadic slot finds a token for every Mandatory slot it meets. -/
def specPriorMandatorySatisfied (ca : List cmdArg) (args : List String) : Bool :=
  (specConsumeSlots (beforeEllipse ca) args).isSome

/-- A slot list placing a Variadic slot before a Mandatory one (the
discouraged-but-accepted configuration of §9). -/
def ellipseThenMand : List cmdArg :=
  [⟨"...", cmdArgType.atEllipse⟩, ⟨"<x>", cmdArgType.atMandatory⟩]

/-- The slot list of the spec's `push` scenario: `Arguments("branch", "...")`. -/
def pushSpec : List cmdArg :=
  [⟨"<branch>", cmdArgType.atMandatory⟩, ⟨"...", cmdArgType.atEllipse⟩]

/-- Type `preArgDef` from command.go: a pre-argument declaration whose `val`
field is written by `TryParse`. -/
structure preArgDef where
  name : String
  desc : String
  val : String
deriving DecidableEq

/-- Boundary to the host flag library: the outcome of parsing the tokens
after the command name against the flag set declared by the command
(`cont.command.Flags` followed by `fs.Parse`).  `setFlags` lists the flags
the user explicitly set (what `fs.Visit` enumerates); `posArgs` is
`fs.Args()`, the leftover non-flag tokens. -/
structure FlagParseResult where
  setFlags : List String
  posArgs : List String

/-- Type `cmdCont` from command.go: a registered command.  The handler together
with the host flag parse is modelled by the boundary function
`parseFlags`; `args = none` models a `nil` argument slice (no arity
checking). -/
structure cmdCont where
  name : String
  desc : String
  parseFlags : List String → FlagParseResult
  requiredFlags : List String
  args : Option (List cmdArg)

/-- Type `TryParseReason` from command.go. -/
inductive TryParseReason
  | noPreArg
  | noCommand
  | invalidCommand
  | argError
deriving DecidableEq

/-- Type `TryParseError` from command.go: reason, offending command (empty when
the error relates to no command) and message. -/
structure TryParseError where
  reason : TryParseReason
  command : String
  message : String
deriving DecidableEq

/-- The package-level mutable state of command.go made explicit: the
registry `cmds` (name-keyed; looked up by name), the pre-argument
declarations `preargdefs`, the resolution state `matchingCmd`/`args`
written by `TryParse` and read by `Run`, and the two feature flags.
`reserveHFlag` only affects which flags the host flag context declares,
which is absorbed into each command's `parseFlags` boundary function. -/
structure CmdState where
  cmds : List (String × cmdCont)
  preargdefs : List preArgDef
  matchingCmd : Option cmdCont
  args : List String
  reserveHFlag : Bool
  helpPreargOverride : Bool

/-- Model of `flag.Arg i` on the positional residue: the i-th token, or `""` out of
range. -/
def flagArg (residue : List String) (i : Nat) : String :=
  residue.getD i ""

/-- The `consumePreargs` condition of `TryParse`:
`(helpPreargOverride && !((flag.NArg() > 0) && (flag.Arg(0) == "help"))) || !helpPreargOverride`. -/
def consumePreargsB (st : CmdState) (residue : List String) : Bool :=
  (st.helpPreargOverride && !(decide (residue.length > 0) && (flagArg residue 0 == "help")))
    || !st.helpPreargOverride

/-- Value `commandNameArgN` of `TryParse`: the number of declared pre-arguments
when they are being consumed, `0` when they are skipped.  (In the Go code
`expectedArgCount` is always this value plus one.) -/
def commandNameArgN (st : CmdState) (residue : List String) : Nat :=
  if consumePreargsB st residue then st.preargdefs.length else 0

/-- The pre-argument write loop of `TryParse`:
`for i, preargdef := range preargdefs { preargdef.val = flag.Arg(i) }`,
with `i` starting at the given index. -/
def writePreArgs : List preArgDef → Nat → List String → List preArgDef
  | [], _, _ => []
  | d :: ds, i, residue => { d with val := flagArg residue i } :: writePreArgs ds (i + 1) residue

/-- The state after the pre-argument stage of `TryParse`: the declared
values are overwritten from the residue when pre-arguments are consumed,
and untouched when they are skipped. -/
def preArgWrittenState (st : CmdState) (residue : List String) : CmdState :=
  if consumePreargsB st residue then
    { st with preargdefs := writePreArgs st.preargdefs 0 residue }
  else st

/-- The tail of `TryParse` once the command name has matched a registered
`cmdCont`: the command's flags are parsed over the tokens after the
command name, `args` and `matchingCmd` are recorded, then the
required-flag check and the argument-arity check run in that order. -/
def tryParseMatched (st1 : CmdState) (residue : List String) (cmdN : Nat)
    (name : String) (cont : cmdCont) : Option TryParseError × CmdState :=
  let fp := cont.parseFlags (residue.drop (cmdN + 1))
  let st2 := { st1 with args := fp.posArgs, matchingCmd := some cont }
  let missing := cont.requiredFlags.filter (fun f => !(fp.setFlags.contains f))
  if missing.length > 0 then
    (some ⟨TryParseReason.invalidCommand, name, name ++ ": missing required flags"⟩, st2)
  else
    match cont.args with
    | none => (none, st2)
    | some ca =>
      match Validate ca fp.posArgs with
      | ValidationOutcome.ok => (none, st2)
      | ValidationOutcome.tooFew =>
        (some ⟨TryParseReason.argError, name, name ++ ": too few arguments"⟩, st2)
      | ValidationOutcome.tooMany =>
        (some ⟨TryParseReason.argError, name, name ++ ": too many arguments"⟩, st2)

/-- Function `TryParse` from command.go, over the positional residue left by the
global flag parse.  Returns the error (`none` meaning success) and the
updated package state. -/
def TryParse (st : CmdState) (residue : List String) : Option TryParseError × CmdState :=
  if st.cmds.length < 1 then (none, st)
  else if consumePreargsB st residue = true
      ∧ residue.length < commandNameArgN st residue + 1 - 1 then
    (some ⟨TryParseReason.noPreArg, "",
      "expected " ++ toString (commandNameArgN st residue + 1 - 1)
        ++ " argument(s) before command"⟩, st)
  else if residue.length < commandNameArgN st residue + 1 then
    (some ⟨TryParseReason.noCommand, "", "missing command"⟩, preArgWrittenState st residue)
  else
    match (preArgWrittenState st residue).cmds.lookup
        (flagArg residue (commandNameArgN st residue)) with
    | some cont =>
      tryParseMatched (preArgWrittenState st residue) residue
        (commandNameArgN st residue) (flagArg residue (commandNameArgN st residue)) cont
    | none =>
      (some ⟨TryParseReason.invalidCommand, "",
        "invalid command: " ++ flagArg residue (commandNameArgN st residue)⟩,
        preArgWrittenState st residue)

/-- A flag-parse boundary function for a command declaring no flags of its
own: nothing is set and every token is positional (used for the concrete
states below). -/
def noFlags : List String → FlagParseResult := fun ts => ⟨[], ts⟩

/-- A concrete command requiring the flag `force`, with no argument
specification. -/
def deployCont : cmdCont := ⟨"deploy", "", noFlags, ["force"], none⟩

/-- A concrete state whose registry holds only `deployCont`. -/
def deploySt : CmdState := ⟨[("deploy", deployCont)], [], none, [], true, false⟩

/-- A concrete flagless command with no argument specification. -/
def statusCont : cmdCont := ⟨"status", "", noFlags, [], none⟩

/-- A concrete help command as `OnHelpShowUsage` registers it: the
`cmdUsageCmd` handler declares no flags, no required flags, no argument
specification. -/
def helpCont : cmdCont := ⟨"help", "Displays usage string of commands", noFlags, [], none⟩

/-- A concrete state with help bypass enabled, one pre-argument and no
`help` command registered. -/
def stNoHelp : CmdState := ⟨[("status", statusCont)], [⟨"org", "o", ""⟩], none, [], true, true⟩

/-- A concrete state with help bypass enabled, one pre-argument and a
`help` command registered via `OnHelpShowUsage` (which also clears
`reserveHFlag`). -/
def stWithHelp : CmdState :=
  ⟨[("help", helpCont), ("status", statusCont)], [⟨"org", "o", ""⟩], none, [], false, true⟩

/-- A concrete command with two Mandatory slots (`Arguments("src", "dst")`). -/
def copyCont : cmdCont :=
  ⟨"copy", "", noFlags, [],
    some [⟨"<src>", cmdArgType.atMandatory⟩, ⟨"<dst>", cmdArgType.atMandatory⟩]⟩

/-- A concrete state whose registry holds only `copyCont`. -/
def copySt : CmdState := ⟨[("copy", copyCont)], [], none, [], true, false⟩

/-- C9: for every non-empty pattern string the slot classifier works by
priority — the literal `"..."` gives a Variadic slot, a token whose first
character is `[` and last character is `]` gives an Optional slot keeping
the brackets in its display name, and any other token gives a Mandatory
slot displayed wrapped in angle brackets. -/
theorem cmdArgFromString_classifies (p : String) (hne : p ≠ "") :
    (p = "..." → cmdArgFromString p = some ⟨p, cmdArgType.atEllipse⟩)
    ∧ (p ≠ "..." → p.front = '[' → p.back = ']' →
        cmdArgFromString p = some ⟨p, cmdArgType.atOptional⟩)
    ∧ (p ≠ "..." → ¬(p.front = '[' ∧ p.back = ']') →
        cmdArgFromString p = some ⟨"<" ++ p ++ ">", cmdArgType.atMandatory⟩) := by
  refine ⟨fun h => ?_, fun h1 h2 h3 => ?_, fun h1 h2 => ?_⟩
  · simp [cmdArgFromString, h]
  · simp [cmdArgFromString, hne, h1, h2, h3]
  · simp [cmdArgFromString, hne, h1, h2]

/-- Witness for C9 at the three concrete patterns `"..."`, `"[env]"` and
`"env"`. -/
theorem cmdArgFromString_classifies_witness :
    cmdArgFromString "..." = some ⟨"...", cmdArgType.atEllipse⟩
    ∧ cmdArgFromString "[env]" = some ⟨"[env]", cmdArgType.atOptional⟩
    ∧ cmdArgFromString "env" = some ⟨"<env>", cmdArgType.atMandatory⟩ :=
  ⟨(cmdArgFromString_classifies "..." (by decide)).1 rfl,
   (cmdArgFromString_classifies "[env]" (by decide)).2.1 (by decide) rfl rfl,
   (cmdArgFromString_classifies "env" (by decide)).2.2 (by decide) (by decide)⟩

/-- C10: with no registered commands, `TryParse` succeeds immediately for
every residue and leaves the whole state, in particular the pre-argument
values and the resolution state, unchanged. -/
theorem tryParse_empty_registry (st : CmdState) (residue : List String)
    (h : st.cmds = []) : TryParse st residue = (none, st) := by
  simp [TryParse, h]

/-- Witness for C10 at a concrete empty-registry state and residue. -/
theorem tryParse_empty_registry_witness :
    TryParse ⟨[], [⟨"org", "", ""⟩], none, [], true, false⟩ ["a", "b"] =
      (none, ⟨[], [⟨"org", "", ""⟩], none, [], true, false⟩) :=
  tryParse_empty_registry _ ["a", "b"] rfl

/-- When the registry is non-empty, enough residue tokens exist and the
command-name token matches a registered command, `TryParse` reduces to its
post-match tail over the pre-argument-written state. -/
theorem tryParse_matched_eq (st : CmdState) (residue : List String) (cont : cmdCont)
    (hne : st.cmds ≠ [])
    (hlen : commandNameArgN st residue + 1 ≤ residue.length)
    (hlk : st.cmds.lookup (flagArg residue (commandNameArgN st residue)) = some cont) :
    TryParse st residue =
      tryParseMatched (preArgWrittenState st residue) residue (commandNameArgN st residue)
        (flagArg residue (commandNameArgN st residue)) cont := by
  have h1 : ¬(st.cmds.length < 1) := by
    simpa [Nat.lt_one_iff, List.length_eq_zero] using hne
  have hpw : (preArgWrittenState st residue).cmds = st.cmds := by
    unfold preArgWrittenState; split <;> rfl
  have h2 : ¬(residue.length < commandNameArgN st residue) := by omega
  have h3 : ¬(residue.length < commandNameArgN st residue + 1) := by omega
  unfold TryParse
  simp [h1, h2, h3, hpw, hlk]

/-- C6: if the command name matches a registered command but some required
flag is not among the flags the user explicitly set in the per-command
flag parse, `TryParse` fails with `InvalidCommand` naming that command. -/
theorem tryParse_missing_required_flag (st : CmdState) (residue : List String)
    (cont : cmdCont) (f : String)
    (hne : st.cmds ≠ [])
    (hlen : commandNameArgN st residue + 1 ≤ residue.length)
    (hlk : st.cmds.lookup (flagArg residue (commandNameArgN st residue)) = some cont)
    (hf : f ∈ cont.requiredFlags)
    (hnot : f ∉ (cont.parseFlags (residue.drop (commandNameArgN st residue + 1))).setFlags) :
    (TryParse st residue).1 =
      some ⟨TryParseReason.invalidCommand, flagArg residue (commandNameArgN st residue),
        flagArg residue (commandNameArgN st residue) ++ ": missing required flags"⟩ := by
  rw [tryParse_matched_eq st residue cont hne hlen hlk]
  unfold tryParseMatched
  have hmem : f ∈ cont.requiredFlags.filter
      (fun g => !decide (g ∈ (cont.parseFlags
        (residue.drop (commandNameArgN st residue + 1))).setFlags)) :=
    List.mem_filter.mpr ⟨hf, by simpa using hnot⟩
  have hpos := List.length_pos_of_mem hmem
  simp [hpos]

/-- Witness for C6: a command `deploy` requiring flag `force`, invoked as
`deploy x` with no flags set. -/
theorem tryParse_missing_required_flag_witness :
    (TryParse deploySt ["deploy", "x"]).1 =
      some ⟨TryParseReason.invalidCommand, "deploy", "deploy: missing required flags"⟩ :=
  tryParse_missing_required_flag deploySt ["deploy", "x"] deployCont "force"
    (by simp [deploySt]) (by simp [deploySt, commandNameArgN, consumePreargsB])
    rfl (by simp [deployCont]) (by simp [deployCont, noFlags])

/-- C1: `Validate` walks the slots left-to-right consuming as described in
the spec, returning `TooFew` exactly when a Mandatory slot finds no
remaining token, `TooMany` exactly when tokens remain after all slots are
processed, and `OK` otherwise. -/
theorem validate_eq_specClassify (ca : List cmdArg) (args : List String) :
    Validate ca args = specClassify (specConsumeSlots ca args) := by
  induction ca generalizing args with
  | nil =>
    cases args with
    | nil => simp [Validate, specConsumeSlots, specClassify]
    | cons t ts => simp [Validate, specConsumeSlots, specClassify]
  | cons a rest ih =>
    cases h : a.argType with
    | atMandatory =>
      cases args with
      | nil => simp [Validate, specConsumeSlots, specClassify, h]
      | cons t ts => simp [Validate, specConsumeSlots, h, ih ts]
    | atOptional =>
      cases args with
      | nil => simp [Validate, specConsumeSlots, h, ih []]
      | cons t ts => simp [Validate, specConsumeSlots, h, ih ts]
    | atEllipse => simp [Validate, specConsumeSlots, h, ih []]

/-- Over a slot list that is all Mandatory, `Validate` compares lengths. -/
theorem validate_all_mandatory (ca : List cmdArg) (ts : List String)
    (h : ∀ a ∈ ca, a.argType = cmdArgType.atMandatory) :
    Validate ca ts =
      if ts.length < ca.length then ValidationOutcome.tooFew
      else if ca.length < ts.length then ValidationOutcome.tooMany
      else ValidationOutcome.ok := by
  induction ca generalizing ts with
  | nil =>
    cases ts with
    | nil => simp [Validate]
    | cons t ts2 => simp [Validate]
  | cons a rest ih =>
    have ha := h a (List.mem_cons_self a rest)
    have hrest : ∀ x ∈ rest, x.argType = cmdArgType.atMandatory :=
      fun x hx => h x (List.mem_cons_of_mem a hx)
    cases ts with
    | nil => simp [Validate, ha]
    | cons t ts2 =>
      simp only [Validate, ha, ih ts2 hrest, List.length_cons]
      simp [Nat.add_lt_add_iff_right]

/-- When every required flag was explicitly set, the post-match tail of
`TryParse` is decided by the argument-arity validation alone. -/
theorem tryParseMatched_fst_flags_ok (st1 : CmdState) (residue : List String)
    (cmdN : Nat) (name : String) (cont : cmdCont)
    (hfil : cont.requiredFlags.filter
      (fun f => !((cont.parseFlags (residue.drop (cmdN + 1))).setFlags.contains f)) = []) :
    (tryParseMatched st1 residue cmdN name cont).1 =
      match cont.args with
      | none => none
      | some ca =>
        match Validate ca (cont.parseFlags (residue.drop (cmdN + 1))).posArgs with
        | ValidationOutcome.ok => none
        | ValidationOutcome.tooFew =>
          some ⟨TryParseReason.argError, name, name ++ ": too few arguments"⟩
        | ValidationOutcome.tooMany =>
          some ⟨TryParseReason.argError, name, name ++ ": too many arguments"⟩ := by
  unfold tryParseMatched
  simp only [hfil, List.length_nil, gt_iff_lt, Nat.lt_irrefl, if_false]
  rcases cont.args with _ | ca
  · rfl
  · rcases h : Validate ca (cont.parseFlags (residue.drop (cmdN + 1))).posArgs with _ | _ | _ <;>
      simp [h]

/-- C2: for a command whose argument specification is exactly `k`
Mandatory slots, a resolution reaching the arity check returns the
too-few `ArgError` when fewer than `k` positional tokens were left by the
per-command flag parse, succeeds at exactly `k`, and returns the too-many
`ArgError` above `k`. -/
theorem tryParse_mandatory_arity (st : CmdState) (residue : List String)
    (cont : cmdCont) (ca : List cmdArg) (k : Nat)
    (hne : st.cmds ≠ [])
    (hlen : commandNameArgN st residue + 1 ≤ residue.length)
    (hlk : st.cmds.lookup (flagArg residue (commandNameArgN st residue)) = some cont)
    (hargs : cont.args = some ca)
    (hmand : ∀ a ∈ ca, a.argType = cmdArgType.atMandatory)
    (hk : ca.length = k)
    (hflags : ∀ f ∈ cont.requiredFlags,
      f ∈ (cont.parseFlags (residue.drop (commandNameArgN st residue + 1))).setFlags) :
    (TryParse st residue).1 =
      if (cont.parseFlags (residue.drop (commandNameArgN st residue + 1))).posArgs.length < k then
        some ⟨TryParseReason.argError, flagArg residue (commandNameArgN st residue),
          flagArg residue (commandNameArgN st residue) ++ ": too few arguments"⟩
      else if k < (cont.parseFlags
          (residue.drop (commandNameArgN st residue + 1))).posArgs.length then
        some ⟨TryParseReason.argError, flagArg residue (commandNameArgN st residue),
          flagArg residue (commandNameArgN st residue) ++ ": too many arguments"⟩
      else none := by
  rw [tryParse_matched_eq st residue cont hne hlen hlk]
  have hfil : cont.requiredFlags.filter
      (fun f => !((cont.parseFlags
        (residue.drop (commandNameArgN st residue + 1))).setFlags.contains f)) = [] := by
    refine List.filter_eq_nil_iff.mpr (fun a ha => ?_)
    simpa using hflags a ha
  rw [tryParseMatched_fst_flags_ok _ _ _ _ _ hfil, hargs]
  simp only [validate_all_mandatory ca _ hmand, hk]
  split_ifs with h1 h2 <;> simp

/-- Witness for C2: the command `copy` with two Mandatory slots, invoked
with one positional token. -/
theorem tryParse_mandatory_arity_witness :
    (TryParse copySt ["copy", "a"]).1 =
      some ⟨TryParseReason.argError, "copy", "copy: too few arguments"⟩ :=
  tryParse_mandatory_arity copySt ["copy", "a"] copyCont
    [⟨"<src>", cmdArgType.atMandatory⟩, ⟨"<dst>", cmdArgType.atMandatory⟩] 2
    (by simp [copySt]) (by decide) rfl rfl (by decide) rfl (by simp [copyCont])

/-- With no tokens left, a slot list without Mandatory slots validates
fine. -/
theorem validate_no_mandatory_nil (ca : List cmdArg)
    (h : ∀ a ∈ ca, a.argType ≠ cmdArgType.atMandatory) :
    Validate ca [] = ValidationOutcome.ok := by
  induction ca with
  | nil => simp [Validate]
  | cons a rest ih =>
    have ha := h a (List.mem_cons_self a rest)
    have hrest : ∀ x ∈ rest, x.argType ≠ cmdArgType.atMandatory :=
      fun x hx => h x (List.mem_cons_of_mem a hx)
    cases hA : a.argType with
    | atMandatory => exact absurd hA ha
    | atOptional => simpa [Validate, hA] using ih hrest
    | atEllipse => simpa [Validate, hA] using ih hrest

/-- C5 (amended): for a slot list containing a Variadic slot and having no
Mandatory slot from the first Variadic slot onwards, whenever every
Mandatory slot before the Variadic receives a token, `Validate` returns
`OK` however many trailing tokens remain. -/
theorem validate_variadic_ok (ca : List cmdArg) (args : List String)
    (he : hasEllipse ca = true)
    (hnm : ∀ a ∈ fromEllipse ca, a.argType ≠ cmdArgType.atMandatory)
    (hpre : specPriorMandatorySatisfied ca args = true) :
    Validate ca args = ValidationOutcome.ok := by
  induction ca generalizing args with
  | nil => simp [hasEllipse] at he
  | cons a rest ih =>
    cases hA : a.argType with
    | atEllipse =>
      have hfrom : fromEllipse (a :: rest) = a :: rest := by
        simp [fromEllipse, List.dropWhile, hA]
      rw [hfrom] at hnm
      have hrest : ∀ x ∈ rest, x.argType ≠ cmdArgType.atMandatory :=
        fun x hx => hnm x (List.mem_cons_of_mem a hx)
      simpa [Validate, hA] using validate_no_mandatory_nil rest hrest
    | atMandatory =>
      have he2 : hasEllipse rest = true := by
        simpa [hasEllipse, hA] using he
      have hfrom : fromEllipse (a :: rest) = fromEllipse rest := by
        simp [fromEllipse, List.dropWhile, hA]
      rw [hfrom] at hnm
      have hbef : beforeEllipse (a :: rest) = a :: beforeEllipse rest := by
        simp [beforeEllipse, List.takeWhile, hA]
      cases args with
      | nil =>
        rw [specPriorMandatorySatisfied, hbef] at hpre
        simp [specConsumeSlots, hA] at hpre
      | cons t args2 =>
        rw [specPriorMandatorySatisfied, hbef] at hpre
        simp only [specConsumeSlots, hA] at hpre
        simpa [Validate, hA] using ih args2 he2 hnm hpre
    | atOptional =>
      have he2 : hasEllipse rest = true := by
        simpa [hasEllipse, hA] using he
      have hfrom : fromEllipse (a :: rest) = fromEllipse rest := by
        simp [fromEllipse, List.dropWhile, hA]
      rw [hfrom] at hnm
      have hbef : beforeEllipse (a :: rest) = a :: beforeEllipse rest := by
        simp [beforeEllipse, List.takeWhile, hA]
      cases args with
      | nil =>
        rw [specPriorMandatorySatisfied, hbef] at hpre
        simp only [specConsumeSlots, hA] at hpre
        simpa [Validate, hA] using ih [] he2 hnm hpre
      | cons t args2 =>
        rw [specPriorMandatorySatisfied, hbef] at hpre
        simp only [specConsumeSlots, hA] at hpre
        simpa [Validate, hA] using ih args2 he2 hnm hpre

/-- Counterexample to C5 as stated: `ellipseThenMand` contains a Variadic
slot and no Mandatory slot precedes it (so the prior-Mandatory condition
holds vacuously), yet on the token list `["a"]` `Validate` does not
return `OK` — it returns `TooFew` for the Mandatory slot placed after the
Variadic one. -/
theorem validate_variadic_cex :
    hasEllipse ellipseThenMand = true
    ∧ specPriorMandatorySatisfied ellipseThenMand ["a"] = true
    ∧ Validate ellipseThenMand ["a"] = ValidationOutcome.tooFew
    ∧ Validate ellipseThenMand ["a"] ≠ ValidationOutcome.ok := by decide

/-- Witness for C5 (amended) at the spec's `push` scenario:
`push main a b c` with slots `branch`, `...`. -/
theorem validate_variadic_ok_witness :
    Validate pushSpec ["main", "a", "b", "c"] = ValidationOutcome.ok :=
  validate_variadic_ok pushSpec ["main", "a", "b", "c"]
    (by decide) (by decide) (by decide)

/-- The pre-argument stage never touches `matchingCmd`. -/
theorem preArgWrittenState_matchingCmd (st : CmdState) (residue : List String) :
    (preArgWrittenState st residue).matchingCmd = st.matchingCmd := by
  unfold preArgWrittenState; split <;> rfl

/-- The pre-argument stage never touches `args`. -/
theorem preArgWrittenState_args (st : CmdState) (residue : List String) :
    (preArgWrittenState st residue).args = st.args := by
  unfold preArgWrittenState; split <;> rfl

/-- The pre-argument stage never touches the registry. -/
theorem preArgWrittenState_cmds (st : CmdState) (residue : List String) :
    (preArgWrittenState st residue).cmds = st.cmds := by
  unfold preArgWrittenState; split <;> rfl

/-- The post-match tail of `TryParse` always leaves the state with the
parsed positional arguments and the matched command recorded, whatever
the outcome. -/
theorem tryParseMatched_snd (st1 : CmdState) (residue : List String)
    (cmdN : Nat) (name : String) (cont : cmdCont) :
    (tryParseMatched st1 residue cmdN name cont).2 =
      { st1 with args := (cont.parseFlags (residue.drop (cmdN + 1))).posArgs,
                 matchingCmd := some cont } := by
  unfold tryParseMatched
  rcases h : cont.args with _ | ca
  · simp only [h]
    split <;> rfl
  · simp only [h]
    split
    · rfl
    · rcases h2 : Validate ca ((cont.parseFlags (residue.drop (cmdN + 1))).posArgs)
        with _ | _ | _ <;> simp [h2]

/-- An error produced by the post-match tail of `TryParse` is a
missing-required-flags `InvalidCommand` or an `ArgError`. -/
theorem tryParseMatched_reason (st1 : CmdState) (residue : List String)
    (cmdN : Nat) (name : String) (cont : cmdCont) (e : TryParseError)
    (h : (tryParseMatched st1 residue cmdN name cont).1 = some e) :
    e.reason = TryParseReason.invalidCommand ∨ e.reason = TryParseReason.argError := by
  unfold tryParseMatched at h
  rcases ha : cont.args with _ | ca
  · simp only [ha] at h
    split at h
    · cases Option.some.inj h
      left; rfl
    · exact Option.noConfusion h
  · simp only [ha] at h
    split at h
    · cases Option.some.inj h
      left; rfl
    · rcases h2 : Validate ca ((cont.parseFlags (residue.drop (cmdN + 1))).posArgs)
        with _ | _ | _ <;> rw [h2] at h
      · exact Option.noConfusion h
      · cases Option.some.inj h
        right; rfl
      · cases Option.some.inj h
        right; rfl

/-- Whenever `TryParse` returns before a command name has matched — empty
registry, too few residue tokens, or an unknown command name — the
resolution state `matchingCmd`/`args` is left unchanged. -/
theorem tryParse_snd_no_match (st : CmdState) (residue : List String)
    (hdisj : st.cmds = [] ∨ residue.length < commandNameArgN st residue + 1 ∨
      st.cmds.lookup (flagArg residue (commandNameArgN st residue)) = none) :
    (TryParse st residue).2.matchingCmd = st.matchingCmd
      ∧ (TryParse st residue).2.args = st.args := by
  have hpm := preArgWrittenState_matchingCmd st residue
  have hpa := preArgWrittenState_args st residue
  have hpc := preArgWrittenState_cmds st residue
  unfold TryParse
  by_cases hc : st.cmds.length < 1
  · rw [if_pos hc]
    exact ⟨rfl, rfl⟩
  · rw [if_neg hc]
    by_cases hnp : consumePreargsB st residue = true
        ∧ residue.length < commandNameArgN st residue + 1 - 1
    · rw [if_pos hnp]
      exact ⟨rfl, rfl⟩
    · rw [if_neg hnp]
      by_cases hncmd : residue.length < commandNameArgN st residue + 1
      · rw [if_pos hncmd]
        exact ⟨hpm, hpa⟩
      · rw [if_neg hncmd]
        rcases hdisj with h | h | h
        · exact absurd (by simp [h]) hc
        · exact absurd h hncmd
        · simp only [hpc, h]
          exact ⟨hpm, hpa⟩

/-- Unless it fails for lack of pre-arguments, `TryParse` leaves the
pre-argument declarations exactly as the pre-argument stage wrote them. -/
theorem tryParse_snd_preargdefs (st : CmdState) (residue : List String)
    (hne : st.cmds ≠ [])
    (hnp : ¬(consumePreargsB st residue = true
      ∧ residue.length < commandNameArgN st residue + 1 - 1)) :
    (TryParse st residue).2.preargdefs = (preArgWrittenState st residue).preargdefs := by
  have hc : ¬(st.cmds.length < 1) := by
    simpa [Nat.lt_one_iff, List.length_eq_zero] using hne
  unfold TryParse
  rw [if_neg hc, if_neg hnp]
  by_cases h2 : residue.length < commandNameArgN st residue + 1
  · rw [if_pos h2]
  · rw [if_neg h2]
    rcases hl : (preArgWrittenState st residue).cmds.lookup
        (flagArg residue (commandNameArgN st residue)) with _ | cont
    · simp only [hl]
    · simp only [hl]
      rw [tryParseMatched_snd]

/-- Lemma: `writePreArgs` keeps the declaration count. -/
theorem writePreArgs_length (ds : List preArgDef) (i : Nat) (residue : List String) :
    (writePreArgs ds i residue).length = ds.length := by
  induction ds generalizing i with
  | nil => rfl
  | cons d ds ih => simp [writePreArgs, ih]

/-- Lemma: `writePreArgs` overwrites the `j`-th declaration's value with the
residue token at index `i + j` and keeps everything else. -/
theorem writePreArgs_getD (ds : List preArgDef) (i j : Nat) (residue : List String)
    (d0 : preArgDef) (hj : j < ds.length) :
    (writePreArgs ds i residue).getD j d0 =
      { ds.getD j d0 with val := flagArg residue (i + j) } := by
  induction ds generalizing i j with
  | nil => simp at hj
  | cons d ds ih =>
    cases j with
    | zero => simp [writePreArgs]
    | succ j2 =>
      have hj2 : j2 < ds.length := by simpa using hj
      have harith : i + 1 + j2 = i + (j2 + 1) := by omega
      simp only [writePreArgs, List.getD_cons_succ]
      rw [ih (i + 1) j2 hj2, harith]

/-- C3 (amended): with the help bypass enabled and `["help"]` the sole
residue, a non-empty registry without a registered `help` command makes
`TryParse` fail with `InvalidCommand` (unknown command) and leave the
state untouched; with a `help` command registered the way
`OnHelpShowUsage` does it (no required flags, no argument spec),
`TryParse` succeeds and only records the match — every pre-argument value
is left untouched (at its zero value). -/
theorem tryParse_help_bypass (st : CmdState)
    (hov : st.helpPreargOverride = true) (hne : st.cmds ≠ []) :
    (st.cmds.lookup "help" = none →
      TryParse st ["help"] =
        (some ⟨TryParseReason.invalidCommand, "", "invalid command: help"⟩, st))
    ∧ (∀ hc, st.cmds.lookup "help" = some hc → hc.requiredFlags = [] → hc.args = none →
      TryParse st ["help"] =
        (none, { st with args := (hc.parseFlags []).posArgs, matchingCmd := some hc })) := by
  have hc1 : ¬(st.cmds.length < 1) := by
    simpa [Nat.lt_one_iff, List.length_eq_zero] using hne
  have hcons : consumePreargsB st ["help"] = false := by
    simp [consumePreargsB, flagArg, hov]
  have hcmdN : commandNameArgN st ["help"] = 0 := by
    simp [commandNameArgN, hcons]
  have hpw : preArgWrittenState st ["help"] = st := by
    simp [preArgWrittenState, hcons]
  have hnp : ¬(consumePreargsB st ["help"] = true
      ∧ List.length ["help"] < commandNameArgN st ["help"] + 1 - 1) := by
    simp [hcons]
  have hncmd : ¬(List.length ["help"] < commandNameArgN st ["help"] + 1) := by
    simp [hcmdN]
  have hname : flagArg ["help"] (commandNameArgN st ["help"]) = "help" := by
    simp [flagArg, hcmdN]
  constructor
  · intro hlk
    unfold TryParse
    rw [if_neg hc1, if_neg hnp, if_neg hncmd, hpw, hname, hlk]
    rfl
  · intro hc hlk hrf hargs
    unfold TryParse
    rw [if_neg hc1, if_neg hnp, if_neg hncmd, hpw, hname, hlk]
    unfold tryParseMatched
    rw [hcmdN]
    simp [hrf, hargs]

/-- Counterexample to C3 as stated: help bypass enabled, residue exactly
`["help"]`, no `help` command registered (but the registry non-empty) —
the outcome is `InvalidCommand`, not the claimed `NoCommand`. -/
theorem tryParse_help_bypass_cex :
    (TryParse stNoHelp ["help"]).1.map TryParseError.reason
        = some TryParseReason.invalidCommand
    ∧ TryParseReason.invalidCommand ≠ TryParseReason.noCommand :=
  ⟨rfl, by decide⟩

/-- Witness for C3 (amended): with `help` registered, `TryParse` returns
success and does not touch the pre-argument declarations. -/
theorem tryParse_help_bypass_witness :
    TryParse stWithHelp ["help"] =
      (none, { stWithHelp with args := [], matchingCmd := some helpCont }) :=
  (tryParse_help_bypass stWithHelp rfl (by simp [stWithHelp])).2 helpCont rfl rfl rfl

/-- C4 (amended): `TryParse` records the matched descriptor and the
positional arguments into the resolution state as soon as the command
name matches and its flags are parsed — before the required-flag and
argument-arity checks — so invocations failing those later checks record
them too; invocations returning before a command is matched (empty
registry, missing pre-arguments or command token, unknown command name)
leave the resolution state unchanged. -/
theorem tryParse_state_recording (st : CmdState) (residue : List String) :
    ((st.cmds = [] ∨ residue.length < commandNameArgN st residue + 1 ∨
        st.cmds.lookup (flagArg residue (commandNameArgN st residue)) = none) →
      (TryParse st residue).2.matchingCmd = st.matchingCmd
        ∧ (TryParse st residue).2.args = st.args)
    ∧ (∀ cont, st.cmds ≠ [] → commandNameArgN st residue + 1 ≤ residue.length →
        st.cmds.lookup (flagArg residue (commandNameArgN st residue)) = some cont →
        (TryParse st residue).2.matchingCmd = some cont
          ∧ (TryParse st residue).2.args =
            (cont.parseFlags (residue.drop (commandNameArgN st residue + 1))).posArgs) := by
  constructor
  · exact fun hdisj => tryParse_snd_no_match st residue hdisj
  · intro cont hne hlen hlk
    rw [tryParse_matched_eq st residue cont hne hlen hlk, tryParseMatched_snd]
    exact ⟨rfl, rfl⟩

/-- Counterexample to C4 as stated: `deploy` is invoked missing its
required flag, so the outcome is non-OK, yet the matched descriptor has
been recorded into the resolution state (it was `none` before the
call). -/
theorem tryParse_state_recording_cex :
    (TryParse deploySt ["deploy", "x"]).1.isSome = true
    ∧ (TryParse deploySt ["deploy", "x"]).2.matchingCmd.isSome = true
    ∧ deploySt.matchingCmd.isSome = false :=
  ⟨rfl, rfl, rfl⟩

/-- Witness for C4 (amended) at a concrete match: `status` after the
pre-argument `acme`. -/
theorem tryParse_state_recording_witness :
    (TryParse stNoHelp ["acme", "status"]).2.matchingCmd = some statusCont
    ∧ (TryParse stNoHelp ["acme", "status"]).2.args = [] :=
  ⟨((tryParse_state_recording stNoHelp ["acme", "status"]).2 statusCont
      (by simp [stNoHelp]) (by decide) rfl).1,
   ((tryParse_state_recording stNoHelp ["acme", "status"]).2 statusCont
      (by simp [stNoHelp]) (by decide) rfl).2⟩

/-- C7: when pre-arguments are consumed and the residue holds at least as
many tokens as there are declarations, every declared pre-argument's
value is overwritten with the residue token at its declaration index (in
declaration order, names preserved), and the command-name token is read
at the index equal to the number of declarations; when pre-arguments are
skipped, the command-name index is `0`. -/
theorem tryParse_prearg_write (st : CmdState) (residue : List String)
    (hne : st.cmds ≠ [])
    (hcons : consumePreargsB st residue = true)
    (hlen : st.preargdefs.length ≤ residue.length) :
    ((TryParse st residue).2.preargdefs.length = st.preargdefs.length
      ∧ ∀ i, i < st.preargdefs.length →
        ((TryParse st residue).2.preargdefs.getD i ⟨"", "", ""⟩).val = residue.getD i ""
          ∧ ((TryParse st residue).2.preargdefs.getD i ⟨"", "", ""⟩).name
              = (st.preargdefs.getD i ⟨"", "", ""⟩).name)
    ∧ commandNameArgN st residue = st.preargdefs.length
    ∧ (∀ st2 res2, consumePreargsB st2 res2 = false → commandNameArgN st2 res2 = 0) := by
  have hcmdN : commandNameArgN st residue = st.preargdefs.length := by
    simp [commandNameArgN, hcons]
  have hnp : ¬(consumePreargsB st residue = true
      ∧ residue.length < commandNameArgN st residue + 1 - 1) := by
    rintro ⟨_, hlt⟩
    rw [hcmdN] at hlt
    omega
  have hpre := tryParse_snd_preargdefs st residue hne hnp
  have hps : (preArgWrittenState st residue).preargdefs
      = writePreArgs st.preargdefs 0 residue := by
    simp [preArgWrittenState, hcons]
  rw [hpre, hps]
  refine ⟨⟨writePreArgs_length _ _ _, fun i hi => ?_⟩, hcmdN,
    fun st2 res2 hc2 => by simp [commandNameArgN, hc2]⟩
  rw [writePreArgs_getD _ _ _ _ _ hi]
  exact ⟨by simp [flagArg], rfl⟩

/-- Witness for C7: pre-argument `org` receives the first token `acme`
and the command name is read at index `1`. -/
theorem tryParse_prearg_write_witness :
    ((TryParse stNoHelp ["acme", "status"]).2.preargdefs.getD 0 ⟨"", "", ""⟩).val = "acme"
    ∧ commandNameArgN stNoHelp ["acme", "status"] = 1 :=
  ⟨by simpa using ((tryParse_prearg_write stNoHelp ["acme", "status"]
      (by simp [stNoHelp]) (by decide) (by decide)).1.2 0 (by decide)).1,
   (tryParse_prearg_write stNoHelp ["acme", "status"]
      (by simp [stNoHelp]) (by decide) (by decide)).2.1⟩

/-- C8: with `p` declared pre-arguments being consumed (and a non-empty
registry), `TryParse` returns `NoPreArg` exactly when the residue holds
fewer than `p` tokens — leaving the state, and so every pre-argument
value, untouched — and `NoCommand` exactly when the residue holds exactly
`p` tokens, all `p` values having been written by then. -/
theorem tryParse_prearg_outcomes (st : CmdState) (residue : List String)
    (hne : st.cmds ≠ [])
    (hcons : consumePreargsB st residue = true) :
    (residue.length < st.preargdefs.length →
      TryParse st residue = (some ⟨TryParseReason.noPreArg, "",
        "expected " ++ toString st.preargdefs.length ++ " argument(s) before command"⟩, st))
    ∧ (residue.length = st.preargdefs.length →
      TryParse st residue = (some ⟨TryParseReason.noCommand, "", "missing command"⟩,
        { st with preargdefs := writePreArgs st.preargdefs 0 residue }))
    ∧ (st.preargdefs.length < residue.length →
      ∀ e, (TryParse st residue).1 = some e →
        e.reason ≠ TryParseReason.noPreArg ∧ e.reason ≠ TryParseReason.noCommand) := by
  have hc1 : ¬(st.cmds.length < 1) := by
    simpa [Nat.lt_one_iff, List.length_eq_zero] using hne
  have hcmdN : commandNameArgN st residue = st.preargdefs.length := by
    simp [commandNameArgN, hcons]
  have hps : preArgWrittenState st residue
      = { st with preargdefs := writePreArgs st.preargdefs 0 residue } := by
    simp [preArgWrittenState, hcons]
  refine ⟨fun hlt => ?_, fun heq => ?_, fun hgt e he => ?_⟩
  · have hnp : consumePreargsB st residue = true
        ∧ residue.length < commandNameArgN st residue + 1 - 1 := by
      exact ⟨hcons, by omega⟩
    unfold TryParse
    rw [if_neg hc1, if_pos hnp, hcmdN]
    simp
  · have hnp : ¬(consumePreargsB st residue = true
        ∧ residue.length < commandNameArgN st residue + 1 - 1) := by
      rintro ⟨_, hlt⟩
      omega
    have hncmd : residue.length < commandNameArgN st residue + 1 := by omega
    unfold TryParse
    rw [if_neg hc1, if_neg hnp, if_pos hncmd, hps]
  · have hnp : ¬(consumePreargsB st residue = true
        ∧ residue.length < commandNameArgN st residue + 1 - 1) := by
      rintro ⟨_, hlt⟩
      omega
    have hncmd : ¬(residue.length < commandNameArgN st residue + 1) := by omega
    unfold TryParse at he
    rw [if_neg hc1, if_neg hnp, if_neg hncmd] at he
    rcases hl : (preArgWrittenState st residue).cmds.lookup
        (flagArg residue (commandNameArgN st residue)) with _ | cont
    · rw [hl] at he
      cases Option.some.inj he
      exact ⟨fun h => TryParseReason.noConfusion h, fun h => TryParseReason.noConfusion h⟩
    · rw [hl] at he
      rcases tryParseMatched_reason _ _ _ _ _ _ he with h | h <;>
        rw [h] <;> exact ⟨by decide, by decide⟩

/-- Witness for C8 at concrete states: one declared pre-argument with an
empty residue gives `NoPreArg`; with exactly one token it gives
`NoCommand` after writing the value. -/
theorem tryParse_prearg_outcomes_witness :
    TryParse stNoHelp [] = (some ⟨TryParseReason.noPreArg, "",
      "expected 1 argument(s) before command"⟩, stNoHelp)
    ∧ TryParse stNoHelp ["acme"] = (some ⟨TryParseReason.noCommand, "", "missing command"⟩,
      { stNoHelp with preargdefs := [⟨"org", "o", "acme"⟩] }) :=
  ⟨(tryParse_prearg_outcomes stNoHelp [] (by simp [stNoHelp]) (by decide)).1 (by decide),
   (tryParse_prearg_outcomes stNoHelp ["acme"] (by simp [stNoHelp]) (by decide)).2.1 (by decide)⟩

end Command
